import Mathlib

/-!
Shallow embedding of the authorization core of the Solana bridge program
(crates `lib` and `bridge/program`): canonical content-leaf encoding,
merkle-proof folding, ECDSA-recovery signature verification, the admin
key store, the per-origin replay guard, and the commission checker.

Machine bytes are modelled as `Nat` values below 256, byte strings as
`List Nat`, and 32-byte Solana public keys / account addresses as byte
lists.  External platform primitives (keccak-256, secp256k1 recovery,
program-address derivation, borsh decoding of foreign instructions) are
passed as explicit function parameters, so every definition stays
executable on concrete inputs.
-/

namespace SolanaBridge

/-- Byte strings: each element is intended to be `< 256` where it matters;
the bound appears as an explicit hypothesis in the theorems that need it. -/
abbrev Bytes := List Nat

/-- Account addresses / public keys (Solana `Pubkey`, 32 bytes). -/
abbrev Pubkey := List Nat

/-- Error conditions surfaced by the bridge processor.  Constructors named
after the `LibError` / `BridgeError` variants the source returns; the last
four stand for failures of platform primitives that the source propagates
with `?` (sysvar load, missing account meta, borsh decode, PDA derivation). -/
inductive LibError where
  | AlreadyInUse
  | NotInitialized
  | WrongSeeds
  | WrongNonce
  | WrongBalance
  | WrongSignature
  | InvalidSignature
  | WrongMerklePath
  | WrongCommissionProgram
  | WrongCommissionAccount
  | WrongCommissionArguments
  | WrongTokenAccount
  | WrongMetadataAccount
  | NoTokenMeta
  | WrongTokenSeed
  | SysvarLoadFailed
  | MissingAccountMeta
  | BorshDecodeFailed
  | PdaDerivationFailed
  deriving DecidableEq, Repr

/-- Token kinds (`lib::TokenType`). -/
inductive TokenType where
  | Native
  | FT
  | NFT
  deriving DecidableEq, Repr

/-- Value of a byte string read as a big-endian base-256 integer. -/
def beNat : Bytes → Nat
  | [] => 0
  | b :: l => b * 256 ^ l.length + beNat l

/-- Lexicographic strict order on byte strings, the order produced by the
derived `Ord` on `solana_program::keccak::Hash` (a `[u8; 32]` newtype):
elementwise comparison, first differing byte decides. -/
def lexLt : Bytes → Bytes → Bool
  | _, [] => false
  | [], _ :: _ => true
  | a :: as, b :: bs => a < b || (a = b && lexLt as bs)

/-- ASCII bytes of the fixed network tag `"Solana"` (`SOLANA_NETWORK` in
merkle_node.rs). -/
def SOLANA_NETWORK : Bytes := [83, 111, 108, 97, 110, 97]

/-- Big-endian byte representation of a `u64` (`u64::to_be_bytes`). -/
def u64_be_bytes (n : Nat) : Bytes :=
  [n / 256 ^ 7 % 256, n / 256 ^ 6 % 256, n / 256 ^ 5 % 256, n / 256 ^ 4 % 256,
   n / 256 ^ 3 % 256, n / 256 ^ 2 % 256, n / 256 % 256, n % 256]

/-- `amount_bytes` (merkle_node.rs): a 32-byte zero array whose final eight
positions receive the eight big-endian bytes of the `u64` amount
(the loop sets `result[31 - i] = bytes[bytes.len() - 1 - i]` for
`i in 0..8`, so `result = [0; 24] ++ amount.to_be_bytes()`). -/
def amount_bytes (amount : Nat) : Bytes :=
  List.replicate 24 0 ++ u64_be_bytes amount

/-- `TransferOperation` (merkle_node.rs).  Strings are carried as their
UTF-8 bytes (`String::as_bytes`), 32-byte ids as byte lists. -/
structure TransferOperation where
  address_to : Option Bytes
  token_id_to : Option Bytes
  amount : Nat
  name : Bytes
  symbol : Bytes
  uri : Bytes
  deriving DecidableEq, Repr

/-- `TransferOperation::new_native_transfer`. -/
def TransferOperation.new_native_transfer (amount : Nat) : TransferOperation :=
  ⟨none, none, amount, [], [], []⟩

/-- `TransferOperation::new_ft_transfer`. -/
def TransferOperation.new_ft_transfer (mint : Bytes) (amount : Nat)
    (name symbol uri : Bytes) : TransferOperation :=
  ⟨some mint, none, amount, name, symbol, uri⟩

/-- `TransferOperation::new_nft_transfer`: note the source stores the
collection in `address_to` and the mint in `token_id_to`, with amount 1. -/
def TransferOperation.new_nft_transfer (mint : Bytes) (collection : Option Bytes)
    (name symbol uri : Bytes) : TransferOperation :=
  ⟨collection, some mint, 1, name, symbol, uri⟩

/-- `TransferOperation::get_operation`: appends `address_to` when present,
then `token_id_to` when present, then the 32-byte amount, then the raw
name, symbol and uri bytes. -/
def TransferOperation.get_operation (t : TransferOperation) : Bytes :=
  t.address_to.getD [] ++ t.token_id_to.getD [] ++
    amount_bytes t.amount ++ t.name ++ t.symbol ++ t.uri

/-- `ContentNode` (merkle_node.rs). -/
structure ContentNode where
  origin : Bytes
  network_to : Bytes
  receiver : Bytes
  program_id : Bytes
  data : Bytes
  deriving DecidableEq, Repr

/-- `ContentNode::new`: fixes the network tag to `"Solana"`. -/
def ContentNode.new (origin receiver program_id data : Bytes) : ContentNode :=
  ⟨origin, SOLANA_NETWORK, receiver, program_id, data⟩

/-- Byte string hashed by `ContentNode::hash`: the concatenation of origin,
network tag, receiver, program id and payload, in this order. -/
def ContentNode.encode (c : ContentNode) : Bytes :=
  c.origin ++ c.network_to ++ c.receiver ++ c.program_id ++ c.data

/-- `ContentNode::hash`: keccak-256 of the encoding.  The hash function is a
parameter standing for `solana_program::keccak::hash`. -/
def ContentNode.hash (keccak : Bytes → Bytes) (c : ContentNode) : Bytes :=
  keccak c.encode

/-- One folding step of `get_merkle_root` (util.rs): the code branches on
`leaf >= hash` under the derived lexicographic order of 32-byte hashes and
puts the larger value first into the keccak preimage. -/
def merkleStep (keccak : Bytes → Bytes) (hash leaf : Bytes) : Bytes :=
  if lexLt leaf hash then keccak (hash ++ leaf) else keccak (leaf ++ hash)

/-- `get_merkle_root` (util.rs): rejects an empty path with
`WrongMerklePath`, then folds the sorted-pair keccak step over the
siblings in path order, starting from the content hash. -/
def get_merkle_root (keccak : Bytes → Bytes) (content : ContentNode)
    (path : List Bytes) : Except LibError Bytes :=
  if path.length = 0 then .error .WrongMerklePath
  else .ok (path.foldl (merkleStep keccak) (content.hash keccak))

/-- `verify_ecdsa_signature` (util.rs).  `recover` stands for the platform
primitive `secp256k1_recover`, returning the recovered 64-byte public key
or `none` on failure (invalid recovery id, malformed signature, invalid
curve point). -/
def verify_ecdsa_signature (recover : Bytes → Nat → Bytes → Option Bytes)
    (hash sig : Bytes) (reid : Nat) (target_key : Bytes) :
    Except LibError Unit :=
  match recover hash reid sig with
  | none => .error .InvalidSignature
  | some recovered =>
      if recovered ≠ target_key then .error .WrongSignature else .ok ()

/-- Reference 32-byte big-endian encoding of an integer, following the
spec's words ("32-byte big-endian amount"). -/
def specBe32 (n : Nat) : Bytes :=
  [n / 256 ^ 31 % 256, n / 256 ^ 30 % 256, n / 256 ^ 29 % 256, n / 256 ^ 28 % 256,
   n / 256 ^ 27 % 256, n / 256 ^ 26 % 256, n / 256 ^ 25 % 256, n / 256 ^ 24 % 256,
   n / 256 ^ 23 % 256, n / 256 ^ 22 % 256, n / 256 ^ 21 % 256, n / 256 ^ 20 % 256,
   n / 256 ^ 19 % 256, n / 256 ^ 18 % 256, n / 256 ^ 17 % 256, n / 256 ^ 16 % 256,
   n / 256 ^ 15 % 256, n / 256 ^ 14 % 256, n / 256 ^ 13 % 256, n / 256 ^ 12 % 256,
   n / 256 ^ 11 % 256, n / 256 ^ 10 % 256, n / 256 ^ 9 % 256, n / 256 ^ 8 % 256,
   n / 256 ^ 7 % 256, n / 256 ^ 6 % 256, n / 256 ^ 5 % 256, n / 256 ^ 4 % 256,
   n / 256 ^ 3 % 256, n / 256 ^ 2 % 256, n / 256 % 256, n % 256]

/-- Reference payload encoding for the `Native` variant, following the
spec's words: 32 zero bytes, then the 32-byte big-endian amount, then
empty name/symbol/uri. -/
def specPayloadNative (amount : Nat) : Bytes :=
  List.replicate 32 0 ++ specBe32 amount

/-- Reference payload encoding for `FungibleTransfer`, following the
spec's words: 32-byte mint, then the 32-byte big-endian amount, then
name, symbol, uri as raw UTF-8. -/
def specPayloadFT (mint : Bytes) (amount : Nat) (name symbol uri : Bytes) : Bytes :=
  mint ++ specBe32 amount ++ name ++ symbol ++ uri

/-- Reference payload encoding for `NonFungibleTransfer`, following the
spec's words: 32-byte mint, then 32-byte collection-or-zero, then a fixed
32-byte big-endian amount of 1, then name, symbol, uri. -/
def specPayloadNFT (mint : Bytes) (collection : Option Bytes)
    (name symbol uri : Bytes) : Bytes :=
  mint ++ collection.getD (List.replicate 32 0) ++ specBe32 1 ++ name ++ symbol ++ uri

/-- Well-formed 32-byte hash value: length 32 with all bytes in range. -/
def wf32 (l : Bytes) : Prop := l.length = 32 ∧ ∀ b ∈ l, b < 256

/-- Spec-side folding step: compare the running hash and the sibling as
big-endian 256-bit integers and feed the numerically larger value first
into keccak. -/
def specSortedStep (keccak : Bytes → Bytes) (hash sibling : Bytes) : Bytes :=
  if beNat sibling < beNat hash then keccak (hash ++ sibling)
  else keccak (sibling ++ hash)

/-- Logical transfers: the three payload shapes produced through the
`TransferOperation` constructors. -/
inductive LogicalTransfer where
  | native (amount : Nat)
  | ft (mint : Bytes) (amount : Nat) (name symbol uri : Bytes)
  | nft (mint : Bytes) (collection : Option Bytes) (name symbol uri : Bytes)
  deriving DecidableEq, Repr

/-- Build the source's `TransferOperation` through the matching constructor. -/
def LogicalTransfer.toOperation : LogicalTransfer → TransferOperation
  | .native a => TransferOperation.new_native_transfer a
  | .ft m a n s u => TransferOperation.new_ft_transfer m a n s u
  | .nft m c n s u => TransferOperation.new_nft_transfer m c n s u

/-- Asset identifier of a logical transfer, absent for Native. -/
def LogicalTransfer.mint : LogicalTransfer → Option Bytes
  | .native _ => none
  | .ft m _ _ _ _ => some m
  | .nft m _ _ _ _ => some m

/-- Transferred amount; fixed to 1 for NFTs. -/
def LogicalTransfer.amount : LogicalTransfer → Nat
  | .native a => a
  | .ft _ a _ _ _ => a
  | .nft _ _ _ _ _ => 1

/-- Token name; empty for Native. -/
def LogicalTransfer.name : LogicalTransfer → Bytes
  | .native _ => []
  | .ft _ _ n _ _ => n
  | .nft _ _ n _ _ => n

/-- Token symbol; empty for Native. -/
def LogicalTransfer.symbol : LogicalTransfer → Bytes
  | .native _ => []
  | .ft _ _ _ s _ => s
  | .nft _ _ _ s _ => s

/-- Token uri; empty for Native. -/
def LogicalTransfer.uri : LogicalTransfer → Bytes
  | .native _ => []
  | .ft _ _ _ _ u => u
  | .nft _ _ _ _ u => u

/-- Collection id, present only for NFTs that carry one. -/
def LogicalTransfer.collection : LogicalTransfer → Option Bytes
  | .nft _ c _ _ _ => c
  | _ => none

/-- Well-formed logical transfer: 32-byte mint and collection ids, `u64`
amounts. -/
def LogicalTransfer.wf : LogicalTransfer → Prop
  | .native a => a < 2 ^ 64
  | .ft m a _ _ _ => m.length = 32 ∧ a < 2 ^ 64
  | .nft m c _ _ _ => m.length = 32 ∧ (c.getD (List.replicate 32 0)).length = 32

/-- `BridgeAdmin` record (bridge `state.rs`; fields as written by
`process_init_admin` and `process_transfer_ownership` and described by
the spec's AdminRecord). -/
structure BridgeAdmin where
  is_initialized : Bool
  public_key : Bytes
  commission_program : Pubkey
  deriving DecidableEq, Repr

/-- `process_transfer_ownership` (bridge processor.rs).  `seedsOk` models
the account-address check `create_program_address([seeds], program_id) ==
bridge_admin_info.key`; `keccak` and `recover` stand for the platform
hash and secp256k1-recovery primitives.  The message verified is the
keccak hash of the candidate new key, checked against the currently
stored key; on success the stored key is replaced. -/
def process_transfer_ownership (keccak : Bytes → Bytes)
    (recover : Bytes → Nat → Bytes → Option Bytes) (seedsOk : Bool)
    (admin : BridgeAdmin) (new_public_key sig : Bytes) (recovery_id : Nat) :
    Except LibError BridgeAdmin :=
  if !seedsOk then .error .WrongSeeds
  else if !admin.is_initialized then .error .NotInitialized
  else
    match verify_ecdsa_signature recover (keccak new_public_key) sig recovery_id
        admin.public_key with
    | .error e => .error e
    | .ok _ => .ok { admin with public_key := new_public_key }

/-- Decoded commission-program instruction
(`lib::instructions::commission::CommissionInstruction`).  Modelled from
the spec: the enum's source is not in the repository snapshot; the spec
describes a "charge commission" message carrying a `(tokenKind, amount)`
pair, and `OtherMessage` stands for any other decodable message shape. -/
inductive CommissionInstruction where
  | ChargeCommission (deposit_token : TokenType) (deposit_token_amount : Nat)
  | OtherMessage
  deriving DecidableEq, Repr

/-- One instruction of the enclosing transaction as read back through the
instructions sysvar: program id, account-meta pubkeys, raw data bytes. -/
structure InstrInfo where
  program_id : Pubkey
  accounts : List Pubkey
  data : Bytes
  deriving DecidableEq, Repr

/-- `verify_commission_charged` (bridge processor.rs).
`createCommissionAddr` stands for `Pubkey::create_program_address`
applied to `[COMMISSION_ADMIN_PDA_SEED, bridge_admin_key]` and the
commission program; `parseCommission` stands for borsh decoding of the
commission instruction data (modelled abstractly, the decoder's source
being outside the snapshot).  `instrs` and `currentIndex` model the
instructions sysvar; the source loads the instruction at
`current_index - 1`, so a deposit at index 0 — no preceding operation in
the unit — makes the checked sysvar load fail, as does an out-of-range
index. -/
def verify_commission_charged
    (createCommissionAddr : Pubkey → Pubkey → Option Pubkey)
    (parseCommission : Bytes → Option CommissionInstruction)
    (bridge_admin_key : Pubkey) (instrs : List InstrInfo) (currentIndex : Nat)
    (admin : BridgeAdmin) (token : TokenType) (amount : Nat) :
    Except LibError Unit :=
  if currentIndex = 0 then .error .SysvarLoadFailed
  else
    match instrs[currentIndex - 1]? with
    | none => .error .SysvarLoadFailed
    | some ci =>
      if ci.program_id ≠ admin.commission_program then
        .error .WrongCommissionProgram
      else
        match createCommissionAddr ci.program_id bridge_admin_key with
        | none => .error .PdaDerivationFailed
        | some commission_key =>
          match ci.accounts[0]? with
          | none => .error .MissingAccountMeta
          | some first_account =>
            if commission_key ≠ first_account then
              .error .WrongCommissionAccount
            else
              match parseCommission ci.data with
              | none => .error .BorshDecodeFailed
              | some (.ChargeCommission tk amt) =>
                  if tk = token ∧ amt = amount then .ok ()
                  else .error .WrongCommissionArguments
              | some .OtherMessage => .error .WrongCommissionArguments

/-- `process_deposit_native` (bridge processor.rs): seeds check,
initialization check, commission check, then the system-program lamport
transfer — an external capability the model treats as succeeding. -/
def process_deposit_native
    (createCommissionAddr : Pubkey → Pubkey → Option Pubkey)
    (parseCommission : Bytes → Option CommissionInstruction)
    (seedsOk : Bool) (bridge_admin_key : Pubkey) (admin : BridgeAdmin)
    (instrs : List InstrInfo) (currentIndex : Nat) (amount : Nat) :
    Except LibError Unit :=
  if !seedsOk then .error .WrongSeeds
  else if !admin.is_initialized then .error .NotInitialized
  else
    match verify_commission_charged createCommissionAddr parseCommission
        bridge_admin_key instrs currentIndex admin .Native amount with
    | .error e => .error e
    | .ok _ => .ok ()

/-- `process_deposit_ft` (bridge processor.rs): seeds check,
initialization check, commission check with the deposit's own
`(FT, amount)` pair, then the bridge associated-token-account check and
the burn (when a token seed is supplied and matches the mint) or
transfer of the tokens.  `bridgeAssocOk` models the associated-token
address check, `tokenSeedOk` the `find_program_address([token_seed])`
mint check; account creation, burning and transferring are external
capabilities the model treats as succeeding. -/
def process_deposit_ft
    (createCommissionAddr : Pubkey → Pubkey → Option Pubkey)
    (parseCommission : Bytes → Option CommissionInstruction)
    (seedsOk : Bool) (bridge_admin_key : Pubkey) (admin : BridgeAdmin)
    (instrs : List InstrInfo) (currentIndex : Nat)
    (bridgeAssocOk : Bool) (token_seed : Option Bytes) (tokenSeedOk : Bool)
    (amount : Nat) :
    Except LibError Unit :=
  if !seedsOk then .error .WrongSeeds
  else if !admin.is_initialized then .error .NotInitialized
  else
    match verify_commission_charged createCommissionAddr parseCommission
        bridge_admin_key instrs currentIndex admin .FT amount with
    | .error e => .error e
    | .ok _ =>
      if !bridgeAssocOk then .error .WrongTokenAccount
      else
        match token_seed with
        | some _ => if !tokenSeedOk then .error .WrongTokenSeed else .ok ()
        | none => .ok ()

/-- `process_deposit_nft` (bridge processor.rs): like the FT deposit but
the commission check is made with the pair `(NFT, 1)` and a single token
is burned or transferred. -/
def process_deposit_nft
    (createCommissionAddr : Pubkey → Pubkey → Option Pubkey)
    (parseCommission : Bytes → Option CommissionInstruction)
    (seedsOk : Bool) (bridge_admin_key : Pubkey) (admin : BridgeAdmin)
    (instrs : List InstrInfo) (currentIndex : Nat)
    (bridgeAssocOk : Bool) (token_seed : Option Bytes) (tokenSeedOk : Bool) :
    Except LibError Unit :=
  if !seedsOk then .error .WrongSeeds
  else if !admin.is_initialized then .error .NotInitialized
  else
    match verify_commission_charged createCommissionAddr parseCommission
        bridge_admin_key instrs currentIndex admin .NFT 1 with
    | .error e => .error e
    | .ok _ =>
      if !bridgeAssocOk then .error .WrongTokenAccount
      else
        match token_seed with
        | some _ => if !tokenSeedOk then .error .WrongTokenSeed else .ok ()
        | none => .ok ()

/-- `Withdraw` record (bridge `state.rs`; fields as written by the
withdraw processors and described by the spec's WithdrawRecord). -/
structure Withdraw where
  is_initialized : Bool
  token_type : TokenType
  origin : Bytes
  mint : Option Pubkey
  amount : Nat
  receiver_address : Pubkey
  deriving DecidableEq, Repr

/-- Borsh content of a freshly created, all-zero withdraw account. -/
def Withdraw.empty : Withdraw :=
  ⟨false, .Native, List.replicate 32 0, none, 0, List.replicate 32 0⟩

/-- Account store of withdraw records plus the bridge admin's lamport
balance: the part of the chain state the withdraw processors read and
write. -/
structure ChainState where
  store : Pubkey → Option Withdraw
  adminBalance : Nat

/-- Pointwise store update at one account address. -/
def storeUpdate (s : Pubkey → Option Withdraw) (a : Pubkey) (w : Withdraw) :
    Pubkey → Option Withdraw :=
  fun x => if x = a then some w else s x

/-- Modelled from the spec: `lib::call_create_account` (source not in the
repository snapshot) creates the record through the platform's exclusive
`createAccountAt` capability, which "fails if occupied"; the failure is
reported as `AlreadyInUse` — "the account cannot be initialized because
it is already being used".  On success the fresh account holds all-zero
data. -/
def call_create_account (st : ChainState) (addr : Pubkey) :
    Except LibError ChainState :=
  match st.store addr with
  | some _ => .error .AlreadyInUse
  | none => .ok { st with store := storeUpdate st.store addr Withdraw.empty }

/-- `process_withdraw_native` (bridge processor.rs).  `findProgAddr`
stands for `Pubkey::find_program_address([origin], program_id).0`, the
derived withdraw-record address; `seedsOk` models the bridge-admin
address check; `owner` is the owner account's key (also the content
receiver); `withdraw_acc` the caller-supplied withdraw account.  The
lamport transfer to the owner is tracked on the bridge-admin side. -/
def process_withdraw_native (keccak : Bytes → Bytes)
    (recover : Bytes → Nat → Bytes → Option Bytes)
    (findProgAddr : Bytes → Pubkey) (seedsOk : Bool) (admin : BridgeAdmin)
    (st : ChainState) (owner : Pubkey) (program_id : Bytes)
    (withdraw_acc : Pubkey) (sig : Bytes) (recovery_id : Nat)
    (path : List Bytes) (origin : Bytes) (amount : Nat) :
    Except LibError ChainState :=
  if !seedsOk then .error .WrongSeeds
  else if !admin.is_initialized then .error .NotInitialized
  else
    match get_merkle_root keccak
        (ContentNode.new origin owner program_id
          (TransferOperation.new_native_transfer amount).get_operation) path with
    | .error e => .error e
    | .ok root =>
      match verify_ecdsa_signature recover root sig recovery_id admin.public_key with
      | .error e => .error e
      | .ok _ =>
        if st.adminBalance < amount then .error .WrongBalance
        else if findProgAddr origin ≠ withdraw_acc then .error .WrongNonce
        else
          match call_create_account st withdraw_acc with
          | .error e => .error e
          | .ok st₁ =>
            match st₁.store withdraw_acc with
            | none => .error .BorshDecodeFailed
            | some w =>
              if w.is_initialized then .error .AlreadyInUse
              else
                let record : Withdraw := ⟨true, .Native, origin, none, amount, owner⟩
                .ok ⟨storeUpdate st₁.store withdraw_acc record,
                     st₁.adminBalance - amount⟩

/-- `process_withdraw_nft` (bridge processor.rs).  Interactions with
accounts outside the core are abstracted: `metaOk` is the token-metadata
PDA check, `mintStep` the outcome of the optional
`try_mint_token_with_meta` call (`none` when `token_seed` is absent),
`collMetaOk` the collection-metadata PDA check, `name`/`symbol`/`uri`/
`collection` the values read from the (collection) metadata after NUL
trimming, `bridgeAssocOk`/`ownerAssocOk` the associated-token-account
address checks; minting and the SPL transfer are external capabilities
the model treats as succeeding. -/
def process_withdraw_nft_checked (keccak : Bytes → Bytes)
    (recover : Bytes → Nat → Bytes → Option Bytes)
    (findProgAddr : Bytes → Pubkey) (admin : BridgeAdmin)
    (st : ChainState) (mint : Bytes) (owner : Pubkey) (program_id : Bytes)
    (withdraw_acc : Pubkey) (collection : Option Bytes)
    (collMetaOk : Bool) (name symbol uri : Bytes)
    (bridgeAssocOk ownerAssocOk : Bool) (sig : Bytes) (recovery_id : Nat)
    (path : List Bytes) (origin : Bytes) :
    Except LibError ChainState :=
  if collection.isSome ∧ ¬collMetaOk then .error .WrongMetadataAccount
  else
    match get_merkle_root keccak
        (ContentNode.new origin owner program_id
          (TransferOperation.new_nft_transfer mint collection name symbol
            uri).get_operation) path with
    | .error e => .error e
    | .ok root =>
      match verify_ecdsa_signature recover root sig recovery_id
          admin.public_key with
      | .error e => .error e
      | .ok _ =>
        if !bridgeAssocOk then .error .WrongTokenAccount
        else if !ownerAssocOk then .error .WrongTokenAccount
        else if findProgAddr origin ≠ withdraw_acc then .error .WrongNonce
        else
          match call_create_account st withdraw_acc with
          | .error e => .error e
          | .ok st₁ =>
            match st₁.store withdraw_acc with
            | none => .error .BorshDecodeFailed
            | some w =>
              if w.is_initialized then .error .AlreadyInUse
              else
                let record : Withdraw := ⟨true, .NFT, origin, some mint, 1, owner⟩
                .ok ⟨storeUpdate st₁.store withdraw_acc record,
                     st₁.adminBalance⟩

/-- Entry checks of `process_withdraw_nft`: seeds, initialization and
metadata-PDA checks and the optional mint step, then the checked tail. -/
def process_withdraw_nft (keccak : Bytes → Bytes)
    (recover : Bytes → Nat → Bytes → Option Bytes)
    (findProgAddr : Bytes → Pubkey) (seedsOk : Bool) (admin : BridgeAdmin)
    (st : ChainState) (mint : Bytes) (owner : Pubkey) (program_id : Bytes)
    (withdraw_acc : Pubkey) (metaOk : Bool)
    (mintStep : Option (Except LibError Unit)) (collection : Option Bytes)
    (collMetaOk : Bool) (name symbol uri : Bytes)
    (bridgeAssocOk ownerAssocOk : Bool) (sig : Bytes) (recovery_id : Nat)
    (path : List Bytes) (origin : Bytes) :
    Except LibError ChainState :=
  if !seedsOk then .error .WrongSeeds
  else if !admin.is_initialized then .error .NotInitialized
  else if !metaOk then .error .WrongMetadataAccount
  else
    match mintStep with
    | some (.error e) => .error e
    | _ =>
      process_withdraw_nft_checked keccak recover findProgAddr admin st mint
        owner program_id withdraw_acc collection collMetaOk name symbol uri
        bridgeAssocOk ownerAssocOk sig recovery_id path origin

/-- Replay-guard invariant: every initialized withdraw record is stored at
the address derived from its own origin. -/
def WithdrawInv (findProgAddr : Bytes → Pubkey) (st : ChainState) : Prop :=
  ∀ a w, st.store a = some w → w.is_initialized = true → a = findProgAddr w.origin

end SolanaBridge

namespace SolanaBridge

theorem beNat_lt_of_bounded (l : Bytes) (h : ∀ b ∈ l, b < 256) :
    beNat l < 256 ^ l.length := by
  induction l with
  | nil => simp [beNat]
  | cons a as ih =>
    have ha : a < 256 := h a (List.mem_cons_self _ _)
    have htail := ih (fun b hb => h b (List.mem_cons_of_mem _ hb))
    have : a * 256 ^ as.length + beNat as < (a + 1) * 256 ^ as.length := by
      nlinarith [pow_pos (show (0:ℕ) < 256 by norm_num) as.length]
    calc beNat (a :: as) = a * 256 ^ as.length + beNat as := rfl
      _ < (a + 1) * 256 ^ as.length := this
      _ ≤ 256 * 256 ^ as.length := by
          have : a + 1 ≤ 256 := ha
          exact Nat.mul_le_mul_right _ this
      _ = 256 ^ (a :: as).length := by
          simp [List.length_cons, pow_succ]; ring

/-- On equal-length byte strings with in-range bytes, the code's
lexicographic comparison agrees with comparison of the big-endian values. -/
theorem lexLt_iff_beNat_lt (l₁ l₂ : Bytes) (hlen : l₁.length = l₂.length)
    (h₁ : ∀ b ∈ l₁, b < 256) (h₂ : ∀ b ∈ l₂, b < 256) :
    lexLt l₁ l₂ = true ↔ beNat l₁ < beNat l₂ := by
  induction l₁ generalizing l₂ with
  | nil =>
    cases l₂ with
    | nil => simp [lexLt, beNat]
    | cons b bs => simp at hlen
  | cons a as ih =>
    cases l₂ with
    | nil => simp at hlen
    | cons b bs =>
      have hlen' : as.length = bs.length := by simpa using hlen
      have ha : a < 256 := h₁ a (List.mem_cons_self _ _)
      have hb : b < 256 := h₂ b (List.mem_cons_self _ _)
      have has : ∀ x ∈ as, x < 256 := fun x hx => h₁ x (List.mem_cons_of_mem _ hx)
      have hbs : ∀ x ∈ bs, x < 256 := fun x hx => h₂ x (List.mem_cons_of_mem _ hx)
      have hAs := beNat_lt_of_bounded as has
      have hBs := beNat_lt_of_bounded bs hbs
      constructor
      · intro h
        simp only [lexLt, Bool.or_eq_true, Bool.and_eq_true, decide_eq_true_eq] at h
        rcases h with h | ⟨hab, h⟩
        · have h1 : beNat (a :: as) < (a + 1) * 256 ^ as.length := by
            simp only [beNat]
            nlinarith [pow_pos (show (0:ℕ) < 256 by norm_num) as.length]
          have hle : (a + 1) * 256 ^ as.length ≤ b * 256 ^ bs.length := by
            rw [← hlen']
            exact Nat.mul_le_mul_right _ h
          have h2 : b * 256 ^ bs.length ≤ beNat (b :: bs) := by
            simp only [beNat]
            omega
          omega
        · have htail : beNat as < beNat bs := (ih bs hlen' has hbs).mp h
          subst hab
          simp only [beNat]
          rw [hlen']
          omega
      · intro h
        simp only [lexLt, Bool.or_eq_true, Bool.and_eq_true, decide_eq_true_eq]
        rcases Nat.lt_trichotomy a b with hab | hab | hab
        · exact Or.inl hab
        · subst hab
          right
          refine ⟨rfl, (ih bs hlen' has hbs).mpr ?_⟩
          simp only [beNat] at h
          rw [hlen'] at h
          omega
        · exfalso
          have h1 : beNat (b :: bs) < (b + 1) * 256 ^ bs.length := by
            simp only [beNat]
            nlinarith [pow_pos (show (0:ℕ) < 256 by norm_num) bs.length]
          have hle : (b + 1) * 256 ^ bs.length ≤ a * 256 ^ as.length := by
            rw [hlen']
            exact Nat.mul_le_mul_right _ hab
          have h2 : a * 256 ^ as.length ≤ beNat (a :: as) := by
            simp only [beNat]
            omega
          omega

/-- For `u64` values the 32-byte amount encoding agrees with the reference
32-byte big-endian encoding. -/
theorem amount_bytes_eq_specBe32 (n : Nat) (h : n < 2 ^ 64) :
    amount_bytes n = specBe32 n := by
  have h' : n < 18446744073709551616 := by norm_num at h ⊢; omega
  simp only [amount_bytes, u64_be_bytes, specBe32, List.replicate, List.cons_append,
    List.nil_append, List.cons.injEq, and_true]
  norm_num
  omega

theorem amount_bytes_length (n : Nat) : (amount_bytes n).length = 32 := by
  simp [amount_bytes, u64_be_bytes]

theorem beNat_amount_bytes (n : Nat) (h : n < 2 ^ 64) :
    beNat (amount_bytes n) = n := by
  have h' : n < 18446744073709551616 := by norm_num at h ⊢; omega
  simp only [amount_bytes, u64_be_bytes, List.replicate, List.cons_append,
    List.nil_append, beNat, List.length_cons, List.length_nil]
  norm_num
  omega

theorem amount_bytes_injective (n m : Nat) (hn : n < 2 ^ 64) (hm : m < 2 ^ 64)
    (h : amount_bytes n = amount_bytes m) : n = m := by
  have h1 := beNat_amount_bytes n hn
  rw [h, beNat_amount_bytes m hm] at h1
  omega

theorem merkleStep_eq_specSortedStep (keccak : Bytes → Bytes)
    (hash sibling : Bytes) (hh : wf32 hash) (hs : wf32 sibling) :
    merkleStep keccak hash sibling = specSortedStep keccak hash sibling := by
  have hiff := lexLt_iff_beNat_lt sibling hash (hs.1.trans hh.1.symm) hs.2 hh.2
  by_cases h : lexLt sibling hash = true
  · rw [merkleStep, specSortedStep, if_pos h, if_pos (hiff.mp h)]
  · rw [merkleStep, specSortedStep, if_neg h, if_neg]
    intro hlt
    exact h (hiff.mpr hlt)

theorem foldl_merkleStep_eq_spec (keccak : Bytes → Bytes)
    (hk : ∀ l, wf32 (keccak l)) :
    ∀ (path : List Bytes) (h : Bytes), wf32 h → (∀ p ∈ path, wf32 p) →
      path.foldl (merkleStep keccak) h = path.foldl (specSortedStep keccak) h := by
  intro path
  induction path with
  | nil => intro h _ _; rfl
  | cons p ps ih =>
    intro h hwf hpath
    have hp : wf32 p := hpath p (List.mem_cons_self _ _)
    have hps : ∀ q ∈ ps, wf32 q := fun q hq => hpath q (List.mem_cons_of_mem _ hq)
    simp only [List.foldl_cons]
    rw [merkleStep_eq_specSortedStep keccak h p hwf hp]
    exact ih (specSortedStep keccak h p) (by unfold specSortedStep; split <;> exact hk _) hps

/-- Claim C4: for every leaf hash and non-empty sibling path, the computed
merkle root is the fold that starts from the leaf hash and, for each
sibling in path order, keccak-hashes the pair with the numerically larger
big-endian 256-bit value first; the result depends only on the sibling
values in order (no left/right position metadata exists in the input). -/
theorem merkle_root_is_sorted_pair_fold (keccak : Bytes → Bytes)
    (hk : ∀ l, wf32 (keccak l)) (content : ContentNode) (path : List Bytes)
    (hpath : ∀ p ∈ path, wf32 p) (hne : path ≠ []) :
    get_merkle_root keccak content path =
      .ok (path.foldl (specSortedStep keccak) (content.hash keccak)) := by
  have hlen : ¬ path.length = 0 := by
    intro h
    exact hne (List.length_eq_zero.mp h)
  rw [get_merkle_root, if_neg hlen,
    foldl_merkleStep_eq_spec keccak hk path (content.hash keccak) (hk _) hpath]

/-- Witness for C4 at a concrete hash function, content and one-step path. -/
theorem merkle_root_is_sorted_pair_fold_witness :
    get_merkle_root (fun _ => List.replicate 32 0) (ContentNode.new [] [] [] [])
        [List.replicate 32 1] =
      .ok ([List.replicate 32 1].foldl (specSortedStep (fun _ => List.replicate 32 0))
        ((ContentNode.new [] [] [] []).hash (fun _ => List.replicate 32 0))) := by
  apply merkle_root_is_sorted_pair_fold
  · intro l
    constructor
    · simp
    · intro b hb
      simp only [List.mem_replicate] at hb
      omega
  · intro p hp
    simp only [List.mem_singleton] at hp
    subst hp
    constructor
    · simp
    · intro b hb
      simp only [List.mem_replicate] at hb
      omega
  · simp

/-- Claim C7: merkle-root computation over an empty sibling path always
fails with the malformed-proof condition (`WrongMerklePath`, the code's
name for the spec's `MalformedProof`), for every leaf hash. -/
theorem merkle_root_empty_path_rejected (keccak : Bytes → Bytes)
    (content : ContentNode) :
    get_merkle_root keccak content [] = .error .WrongMerklePath := rfl

/-- Claim C6: signature verification is a total three-way case split on
public-key recovery: recovery failure yields `InvalidSignature`, a
recovered key differing from the expected key yields `WrongSignature`,
and agreement yields success. -/
theorem signature_three_way_split (recover : Bytes → Nat → Bytes → Option Bytes)
    (hash sig : Bytes) (reid : Nat) (key : Bytes) :
    (recover hash reid sig = none →
      verify_ecdsa_signature recover hash sig reid key = .error .InvalidSignature) ∧
    (∀ k, recover hash reid sig = some k → k ≠ key →
      verify_ecdsa_signature recover hash sig reid key = .error .WrongSignature) ∧
    (∀ k, recover hash reid sig = some k → k = key →
      verify_ecdsa_signature recover hash sig reid key = .ok ()) := by
  refine ⟨?_, ?_, ?_⟩
  · intro h
    simp [verify_ecdsa_signature, h]
  · intro k hk hne
    simp [verify_ecdsa_signature, hk, hne]
  · intro k hk heq
    subst heq
    simp [verify_ecdsa_signature, hk]

/-- Witness for C6: all three outcomes realized at concrete inputs. -/
theorem signature_three_way_split_witness :
    verify_ecdsa_signature (fun _ _ _ => some [1]) [] [] 0 [1] = .ok () ∧
    verify_ecdsa_signature (fun _ _ _ => some [1]) [] [] 0 [2] = .error .WrongSignature ∧
    verify_ecdsa_signature (fun _ _ _ => none) [] [] 0 [1] = .error .InvalidSignature :=
  ⟨(signature_three_way_split (fun _ _ _ => some [1]) [] [] 0 [1]).2.2 [1] rfl rfl,
   (signature_three_way_split (fun _ _ _ => some [1]) [] [] 0 [2]).2.1 [1] rfl (by decide),
   (signature_three_way_split (fun _ _ _ => none) [] [] 0 [1]).1 rfl⟩

/-- Counterexample for C3: the code's Native payload is just the 32-byte
big-endian amount (no leading 32-byte zero block), and the code's NFT
payload puts the collection before the mint, omitting an absent
collection entirely instead of zero-filling it. -/
theorem payload_encoding_differs_from_spec_reference :
    (TransferOperation.new_native_transfer 5).get_operation ≠ specPayloadNative 5 ∧
    (TransferOperation.new_nft_transfer (List.replicate 32 2) none [] [] []).get_operation ≠
      specPayloadNFT (List.replicate 32 2) none [] [] [] := by
  constructor <;> decide

/-- Claim C3 (amended): the encoded payloadBytes per variant are: Native =
the 32-byte big-endian amount alone (no leading zero block, empty
name/symbol/uri); FungibleTransfer = 32-byte mint, then the 32-byte
big-endian amount, then name, symbol, uri as raw UTF-8 (as the spec
states); NonFungibleTransfer = the 32-byte collection first when present
and nothing in its place when absent, then the 32-byte mint, then the
fixed 32-byte big-endian amount of 1, then name, symbol, uri. -/
theorem payload_encoding_per_variant (a : Nat) (ha : a < 2 ^ 64)
    (mint c name symbol uri : Bytes) :
    (TransferOperation.new_native_transfer a).get_operation = specBe32 a ∧
    (TransferOperation.new_ft_transfer mint a name symbol uri).get_operation =
      specPayloadFT mint a name symbol uri ∧
    (TransferOperation.new_nft_transfer mint (some c) name symbol uri).get_operation =
      c ++ mint ++ specBe32 1 ++ name ++ symbol ++ uri ∧
    (TransferOperation.new_nft_transfer mint none name symbol uri).get_operation =
      mint ++ specBe32 1 ++ name ++ symbol ++ uri := by
  have h1 : amount_bytes a = specBe32 a := amount_bytes_eq_specBe32 a ha
  have h2 : amount_bytes 1 = specBe32 1 := amount_bytes_eq_specBe32 1 (by norm_num)
  refine ⟨?_, ?_, ?_, ?_⟩ <;>
    simp [TransferOperation.get_operation, TransferOperation.new_native_transfer,
      TransferOperation.new_ft_transfer, TransferOperation.new_nft_transfer,
      specPayloadFT, h1, h2]

/-- Witness for C3 (amended) at a concrete amount and concrete fields. -/
theorem payload_encoding_per_variant_witness :
    (TransferOperation.new_native_transfer 300).get_operation = specBe32 300 :=
  (payload_encoding_per_variant 300 (by norm_num) [] [] [] [] []).1

/-- Claim C10: the 32-byte amount encoding is 24 zero bytes followed by the
8-byte big-endian representation, equals the amount read as a 256-bit
big-endian integer, and is injective over the full `u64` range. -/
theorem amount_bytes_value_preserving (n m : Nat) (hn : n < 2 ^ 64) (hm : m < 2 ^ 64) :
    (amount_bytes n).length = 32 ∧
    (amount_bytes n).take 24 = List.replicate 24 0 ∧
    (amount_bytes n).drop 24 = u64_be_bytes n ∧
    beNat (amount_bytes n) = n ∧
    (amount_bytes n = amount_bytes m → n = m) :=
  ⟨amount_bytes_length n, by simp [amount_bytes], by simp [amount_bytes],
   beNat_amount_bytes n hn, amount_bytes_injective n m hn hm⟩

/-- Witness for C10 at concrete amounts. -/
theorem amount_bytes_value_preserving_witness :
    beNat (amount_bytes 300) = 300 :=
  (amount_bytes_value_preserving 300 301 (by norm_num) (by norm_num)).2.2.2.1

end SolanaBridge

namespace SolanaBridge

theorem toOperation_native (a : Nat) :
    (LogicalTransfer.native a).toOperation.get_operation = amount_bytes a := by
  simp [LogicalTransfer.toOperation, TransferOperation.get_operation,
    TransferOperation.new_native_transfer]

theorem toOperation_ft (m : Bytes) (a : Nat) (n s u : Bytes) :
    (LogicalTransfer.ft m a n s u).toOperation.get_operation =
      m ++ (amount_bytes a ++ (n ++ (s ++ u))) := by
  simp [LogicalTransfer.toOperation, TransferOperation.get_operation,
    TransferOperation.new_ft_transfer]

theorem toOperation_nft_some (m cc : Bytes) (n s u : Bytes) :
    (LogicalTransfer.nft m (some cc) n s u).toOperation.get_operation =
      cc ++ (m ++ (amount_bytes 1 ++ (n ++ (s ++ u)))) := by
  simp [LogicalTransfer.toOperation, TransferOperation.get_operation,
    TransferOperation.new_nft_transfer]

theorem toOperation_nft_none (m : Bytes) (n s u : Bytes) :
    (LogicalTransfer.nft m none n s u).toOperation.get_operation =
      m ++ (amount_bytes 1 ++ (n ++ (s ++ u))) := by
  simp [LogicalTransfer.toOperation, TransferOperation.get_operation,
    TransferOperation.new_nft_transfer]

theorem append_same_tail_cancel {n₁ n₂ t : Bytes} (h : n₁ ++ t = n₂ ++ t) :
    n₁ = n₂ := by
  have hlen : n₁.length = n₂.length := by
    have := congrArg List.length h
    simp only [List.length_append] at this
    omega
  exact (List.append_inj h hlen).1

/-- Equal payload encodings force equal mint, amount and name, whenever
symbols, uris and collections agree and the transfers are well formed. -/
theorem get_operation_fields (t₁ t₂ : LogicalTransfer)
    (hw₁ : t₁.wf) (hw₂ : t₂.wf)
    (hsym : t₁.symbol = t₂.symbol) (huri : t₁.uri = t₂.uri)
    (hcol : t₁.collection = t₂.collection)
    (henc : t₁.toOperation.get_operation = t₂.toOperation.get_operation) :
    t₁.mint = t₂.mint ∧ t₁.amount = t₂.amount ∧ t₁.name = t₂.name := by
  cases t₁ with
  | native a₁ =>
    cases t₂ with
    | native a₂ =>
      rw [toOperation_native, toOperation_native] at henc
      have := amount_bytes_injective a₁ a₂ hw₁ hw₂ henc
      subst this
      exact ⟨rfl, rfl, rfl⟩
    | ft m a n s u =>
      exfalso
      rw [toOperation_native, toOperation_ft] at henc
      have hlen := congrArg List.length henc
      simp only [List.length_append, amount_bytes_length] at hlen
      have hm := hw₂.1
      omega
    | nft m c n s u =>
      exfalso
      cases c with
      | none =>
        rw [toOperation_native, toOperation_nft_none] at henc
        have hlen := congrArg List.length henc
        simp only [List.length_append, amount_bytes_length] at hlen
        have hm := hw₂.1
        omega
      | some cc =>
        rw [toOperation_native, toOperation_nft_some] at henc
        have hlen := congrArg List.length henc
        simp only [List.length_append, amount_bytes_length] at hlen
        have hm := hw₂.1
        omega
  | ft m₁ a₁ n₁ s₁ u₁ =>
    cases t₂ with
    | native a₂ =>
      exfalso
      rw [toOperation_ft, toOperation_native] at henc
      have hlen := congrArg List.length henc
      simp only [List.length_append, amount_bytes_length] at hlen
      have hm := hw₁.1
      omega
    | ft m₂ a₂ n₂ s₂ u₂ =>
      simp only [LogicalTransfer.symbol] at hsym
      simp only [LogicalTransfer.uri] at huri
      subst hsym
      subst huri
      rw [toOperation_ft, toOperation_ft] at henc
      obtain ⟨hm, hrest⟩ := List.append_inj henc (hw₁.1.trans hw₂.1.symm)
      obtain ⟨hab, hrest2⟩ := List.append_inj hrest
        ((amount_bytes_length a₁).trans (amount_bytes_length a₂).symm)
      have hamt := amount_bytes_injective a₁ a₂ hw₁.2 hw₂.2 hab
      have hname := append_same_tail_cancel hrest2
      subst hm
      subst hamt
      subst hname
      exact ⟨rfl, rfl, rfl⟩
    | nft m₂ c₂ n₂ s₂ u₂ =>
      simp only [LogicalTransfer.collection] at hcol
      simp only [LogicalTransfer.symbol] at hsym
      simp only [LogicalTransfer.uri] at huri
      subst hsym
      subst huri
      cases c₂ with
      | some cc =>
        exact absurd hcol (by simp)
      | none =>
        rw [toOperation_ft, toOperation_nft_none] at henc
        obtain ⟨hm, hrest⟩ := List.append_inj henc (hw₁.1.trans hw₂.1.symm)
        obtain ⟨hab, hrest2⟩ := List.append_inj hrest
          ((amount_bytes_length a₁).trans (amount_bytes_length 1).symm)
        have hamt := amount_bytes_injective a₁ 1 hw₁.2 (by norm_num) hab
        have hname := append_same_tail_cancel hrest2
        subst hm
        subst hname
        exact ⟨by simp [LogicalTransfer.mint], by
          simp [LogicalTransfer.amount, hamt], by simp [LogicalTransfer.name]⟩
  | nft m₁ c₁ n₁ s₁ u₁ =>
    cases t₂ with
    | native a₂ =>
      exfalso
      cases c₁ with
      | none =>
        rw [toOperation_nft_none, toOperation_native] at henc
        have hlen := congrArg List.length henc
        simp only [List.length_append, amount_bytes_length] at hlen
        have hm := hw₁.1
        omega
      | some cc =>
        rw [toOperation_nft_some, toOperation_native] at henc
        have hlen := congrArg List.length henc
        simp only [List.length_append, amount_bytes_length] at hlen
        have hm := hw₁.1
        omega
    | ft m₂ a₂ n₂ s₂ u₂ =>
      simp only [LogicalTransfer.collection] at hcol
      simp only [LogicalTransfer.symbol] at hsym
      simp only [LogicalTransfer.uri] at huri
      subst hsym
      subst huri
      cases c₁ with
      | some cc =>
        exact absurd hcol.symm (by simp)
      | none =>
        rw [toOperation_nft_none, toOperation_ft] at henc
        obtain ⟨hm, hrest⟩ := List.append_inj henc (hw₁.1.trans hw₂.1.symm)
        obtain ⟨hab, hrest2⟩ := List.append_inj hrest
          ((amount_bytes_length 1).trans (amount_bytes_length a₂).symm)
        have hamt := amount_bytes_injective 1 a₂ (by norm_num) hw₂.2 hab
        have hname := append_same_tail_cancel hrest2
        subst hm
        subst hname
        exact ⟨by simp [LogicalTransfer.mint], by
          simp [LogicalTransfer.amount, hamt], by simp [LogicalTransfer.name]⟩
    | nft m₂ c₂ n₂ s₂ u₂ =>
      simp only [LogicalTransfer.collection] at hcol
      simp only [LogicalTransfer.symbol] at hsym
      simp only [LogicalTransfer.uri] at huri
      subst hsym
      subst huri
      subst hcol
      cases c₁ with
      | none =>
        rw [toOperation_nft_none, toOperation_nft_none] at henc
        obtain ⟨hm, hrest⟩ := List.append_inj henc (hw₁.1.trans hw₂.1.symm)
        obtain ⟨_, hrest2⟩ := List.append_inj hrest
          ((amount_bytes_length 1).trans (amount_bytes_length 1).symm)
        have hname := append_same_tail_cancel hrest2
        subst hm
        subst hname
        exact ⟨rfl, rfl, rfl⟩
      | some cc =>
        rw [toOperation_nft_some, toOperation_nft_some] at henc
        obtain ⟨_, hrest0⟩ := List.append_inj henc rfl
        obtain ⟨hm, hrest⟩ := List.append_inj hrest0 (hw₁.1.trans hw₂.1.symm)
        obtain ⟨_, hrest2⟩ := List.append_inj hrest
          ((amount_bytes_length 1).trans (amount_bytes_length 1).symm)
        have hname := append_same_tail_cancel hrest2
        subst hm
        subst hname
        exact ⟨rfl, rfl, rfl⟩

end SolanaBridge

namespace SolanaBridge

/-- Claim C8: two logical transfers whose (mint, amount) pairs differ, or
whose names differ, with all other leaf fields equal, produce distinct
encoded content leaves — the leaf encoding is injective on this class of
inputs. -/
theorem leaf_encoding_injective_on_class (t₁ t₂ : LogicalTransfer)
    (hw₁ : t₁.wf) (hw₂ : t₂.wf)
    (hsym : t₁.symbol = t₂.symbol) (huri : t₁.uri = t₂.uri)
    (hcol : t₁.collection = t₂.collection)
    (hclass : ((t₁.mint, t₁.amount) ≠ (t₂.mint, t₂.amount) ∧ t₁.name = t₂.name) ∨
      (t₁.name ≠ t₂.name ∧ t₁.mint = t₂.mint ∧ t₁.amount = t₂.amount))
    (origin receiver program_id : Bytes) :
    (ContentNode.new origin receiver program_id
        t₁.toOperation.get_operation).encode ≠
      (ContentNode.new origin receiver program_id
        t₂.toOperation.get_operation).encode := by
  intro henc
  simp only [ContentNode.new, ContentNode.encode] at henc
  have hdata : t₁.toOperation.get_operation = t₂.toOperation.get_operation :=
    List.append_cancel_left henc
  obtain ⟨hm, ha, hn⟩ := get_operation_fields t₁ t₂ hw₁ hw₂ hsym huri hcol hdata
  rcases hclass with ⟨hpair, _⟩ | ⟨hname, _, _⟩
  · exact hpair (by rw [hm, ha])
  · exact hname hn

/-- Witness for C8: two fungible transfers differing only in the mint. -/
theorem leaf_encoding_injective_on_class_witness :
    (ContentNode.new [7] [8] [9]
        (LogicalTransfer.ft (List.replicate 32 3) 5 [] [] []).toOperation.get_operation).encode ≠
      (ContentNode.new [7] [8] [9]
        (LogicalTransfer.ft (List.replicate 32 4) 5 [] [] []).toOperation.get_operation).encode :=
  leaf_encoding_injective_on_class
    (.ft (List.replicate 32 3) 5 [] [] []) (.ft (List.replicate 32 4) 5 [] [] [])
    ⟨by simp, by norm_num⟩ ⟨by simp, by norm_num⟩ rfl rfl rfl
    (Or.inl ⟨by decide, rfl⟩) [7] [8] [9]

end SolanaBridge

namespace SolanaBridge

/-- Claim C2: TransferOwnership succeeds only from the Initialized state —
failing `NotInitialized` otherwise — and only when the signature over
keccak-256 of the new key recovers to the currently stored authority key;
for a new key different from the current one, a signature produced by the
new key itself is rejected with `WrongSignature`, while a signature
produced by the current key succeeds and replaces the stored key. -/
theorem rotate_key_requires_current_key (keccak : Bytes → Bytes)
    (recover : Bytes → Nat → Bytes → Option Bytes) (admin : BridgeAdmin)
    (npk sig : Bytes) (rid : Nat) :
    (admin.is_initialized = false →
      process_transfer_ownership keccak recover true admin npk sig rid =
        .error .NotInitialized) ∧
    (∀ seedsOk a',
      process_transfer_ownership keccak recover seedsOk admin npk sig rid = .ok a' →
      admin.is_initialized = true ∧
      recover (keccak npk) rid sig = some admin.public_key) ∧
    (admin.is_initialized = true →
      recover (keccak npk) rid sig = some npk → npk ≠ admin.public_key →
      process_transfer_ownership keccak recover true admin npk sig rid =
        .error .WrongSignature) ∧
    (admin.is_initialized = true →
      recover (keccak npk) rid sig = some admin.public_key →
      process_transfer_ownership keccak recover true admin npk sig rid =
        .ok { admin with public_key := npk }) := by
  refine ⟨?_, ?_, ?_, ?_⟩
  · intro h
    simp [process_transfer_ownership, h]
  · intro seedsOk a' h
    by_cases hs : seedsOk
    · by_cases hi : admin.is_initialized
      · refine ⟨hi, ?_⟩
        rcases hrec : recover (keccak npk) rid sig with _ | k
        · simp [process_transfer_ownership, verify_ecdsa_signature, hs, hi, hrec] at h
        · by_cases hk : k = admin.public_key
          · exact congrArg some hk
          · simp [process_transfer_ownership, verify_ecdsa_signature, hs, hi, hrec, hk] at h
      · simp [process_transfer_ownership, hs, hi] at h
    · simp [process_transfer_ownership, hs] at h
  · intro hi hrec hne
    simp [process_transfer_ownership, verify_ecdsa_signature, hi, hrec, hne]
  · intro hi hrec
    simp [process_transfer_ownership, verify_ecdsa_signature, hi, hrec]

/-- Witness for C2: a rotation signed by the current key succeeds, a
self-signed rotation by the candidate key is rejected, and an
uninitialized store rejects rotation. -/
theorem rotate_key_requires_current_key_witness :
    process_transfer_ownership (fun _ => [5]) (fun _ _ _ => some [1]) true
      ⟨true, [1], [9]⟩ [2] [] 0 = .ok ⟨true, [2], [9]⟩ ∧
    process_transfer_ownership (fun _ => [5]) (fun _ _ _ => some [2]) true
      ⟨true, [1], [9]⟩ [2] [] 0 = .error .WrongSignature ∧
    process_transfer_ownership (fun _ => [5]) (fun _ _ _ => some [1]) true
      ⟨false, [1], [9]⟩ [2] [] 0 = .error .NotInitialized :=
  ⟨(rotate_key_requires_current_key (fun _ => [5]) (fun _ _ _ => some [1])
      ⟨true, [1], [9]⟩ [2] [] 0).2.2.2 rfl rfl,
   (rotate_key_requires_current_key (fun _ => [5]) (fun _ _ _ => some [2])
      ⟨true, [1], [9]⟩ [2] [] 0).2.2.1 rfl rfl (by decide),
   (rotate_key_requires_current_key (fun _ => [5]) (fun _ _ _ => some [1])
      ⟨false, [1], [9]⟩ [2] [] 0).1 rfl⟩

/-- Claim C9: a successful TransferOwnership modifies only the stored
authority key; the commission program reference and the initialized flag
of the admin record are unchanged. -/
theorem rotate_key_frame (keccak : Bytes → Bytes)
    (recover : Bytes → Nat → Bytes → Option Bytes) (seedsOk : Bool)
    (admin : BridgeAdmin) (npk sig : Bytes) (rid : Nat) (a' : BridgeAdmin)
    (h : process_transfer_ownership keccak recover seedsOk admin npk sig rid = .ok a') :
    a'.commission_program = admin.commission_program ∧
    a'.is_initialized = admin.is_initialized ∧
    a'.public_key = npk := by
  by_cases hs : seedsOk
  · by_cases hi : admin.is_initialized
    · rcases hrec : recover (keccak npk) rid sig with _ | k
      · simp [process_transfer_ownership, verify_ecdsa_signature, hs, hi, hrec] at h
      · by_cases hk : k = admin.public_key
        · simp [process_transfer_ownership, verify_ecdsa_signature, hs, hi, hrec, hk] at h
          subst h
          exact ⟨rfl, by simp [hi], rfl⟩
        · simp [process_transfer_ownership, verify_ecdsa_signature, hs, hi, hrec, hk] at h
    · simp [process_transfer_ownership, hs, hi] at h
  · simp [process_transfer_ownership, hs] at h

/-- Witness for C9 at a concrete successful rotation. -/
theorem rotate_key_frame_witness :
    (⟨true, [2], [9]⟩ : BridgeAdmin).commission_program =
      (⟨true, [1], [9]⟩ : BridgeAdmin).commission_program ∧
    (⟨true, [2], [9]⟩ : BridgeAdmin).is_initialized =
      (⟨true, [1], [9]⟩ : BridgeAdmin).is_initialized ∧
    (⟨true, [2], [9]⟩ : BridgeAdmin).public_key = [2] :=
  rotate_key_frame (fun _ => [5]) (fun _ _ _ => some [1]) true
    ⟨true, [1], [9]⟩ [2] [] 0 ⟨true, [2], [9]⟩ rfl

end SolanaBridge

namespace SolanaBridge

/-- Success characterization of the commission check: it passes exactly
when a preceding instruction exists, is owned by the configured
commission program, targets the derived commission-admin account as its
first account, and decodes to a charge message with the deposit's own
token kind and amount. -/
theorem verify_commission_ok_iff
    (cca : Pubkey → Pubkey → Option Pubkey)
    (pc : Bytes → Option CommissionInstruction)
    (bak : Pubkey) (instrs : List InstrInfo) (idx : Nat)
    (admin : BridgeAdmin) (token : TokenType) (amount : Nat) :
    verify_commission_charged cca pc bak instrs idx admin token amount = .ok () ↔
      (idx ≠ 0 ∧ ∃ ci k, instrs[idx - 1]? = some ci ∧
        ci.program_id = admin.commission_program ∧
        cca ci.program_id bak = some k ∧
        ci.accounts[0]? = some k ∧
        pc ci.data = some (.ChargeCommission token amount)) := by
  constructor
  · intro h
    by_cases h0 : idx = 0
    · simp [verify_commission_charged, h0] at h
    · refine ⟨h0, ?_⟩
      rcases hci : instrs[idx - 1]? with _ | ci
      · simp [verify_commission_charged, h0, hci] at h
      · by_cases hprog : ci.program_id = admin.commission_program
        · rcases hk : cca ci.program_id bak with _ | k
          · have hk2 : cca admin.commission_program bak = none := by
              rw [← hprog]; exact hk
            simp [verify_commission_charged, h0, hci, hprog, hk2] at h
          · have hk2 : cca admin.commission_program bak = some k := by
              rw [← hprog]; exact hk
            rcases hacc : ci.accounts[0]? with _ | acc0
            · simp [verify_commission_charged, h0, hci, hprog, hk2, hacc] at h
            · by_cases hke : k = acc0
              · subst hke
                rcases hpc : pc ci.data with _ | instr
                · simp [verify_commission_charged, h0, hci, hprog, hk2, hacc, hpc] at h
                · cases instr with
                  | ChargeCommission tk amt =>
                    by_cases hta : tk = token ∧ amt = amount
                    · exact ⟨ci, k, rfl, hprog, hk, hacc, by
                        rw [hpc, hta.1, hta.2]⟩
                    · simp [verify_commission_charged, h0, hci, hprog, hk2, hacc,
                        hpc, hta] at h
                  | OtherMessage =>
                    simp [verify_commission_charged, h0, hci, hprog, hk2, hacc, hpc] at h
              · simp [verify_commission_charged, h0, hci, hprog, hk2, hacc, hke] at h
        · simp [verify_commission_charged, h0, hci, hprog] at h
  · rintro ⟨h0, ci, k, hci, hprog, hk, hacc, hpc⟩
    have hk2 : cca admin.commission_program bak = some k := by
      rw [← hprog]; exact hk
    simp [verify_commission_charged, h0, hci, hprog, hk2, hacc, hpc]

end SolanaBridge

namespace SolanaBridge

theorem verify_commission_absent
    (cca : Pubkey → Pubkey → Option Pubkey)
    (pc : Bytes → Option CommissionInstruction) (bak : Pubkey)
    (instrs : List InstrInfo) (idx : Nat) (admin : BridgeAdmin)
    (token : TokenType) (amount : Nat)
    (habs : idx = 0 ∨ instrs[idx - 1]? = none) :
    verify_commission_charged cca pc bak instrs idx admin token amount =
      .error .SysvarLoadFailed := by
  rcases habs with h0 | hnone
  · simp [verify_commission_charged, h0]
  · by_cases h0 : idx = 0
    · simp [verify_commission_charged, h0]
    · simp [verify_commission_charged, h0, hnone]

theorem verify_commission_wrong_program
    (cca : Pubkey → Pubkey → Option Pubkey)
    (pc : Bytes → Option CommissionInstruction) (bak : Pubkey)
    (instrs : List InstrInfo) (idx : Nat) (admin : BridgeAdmin)
    (token : TokenType) (amount : Nat) (ci : InstrInfo)
    (h0 : idx ≠ 0) (hci : instrs[idx - 1]? = some ci)
    (hprog : ci.program_id ≠ admin.commission_program) :
    verify_commission_charged cca pc bak instrs idx admin token amount =
      .error .WrongCommissionProgram := by
  simp [verify_commission_charged, h0, hci, hprog]

theorem verify_commission_wrong_account
    (cca : Pubkey → Pubkey → Option Pubkey)
    (pc : Bytes → Option CommissionInstruction) (bak : Pubkey)
    (instrs : List InstrInfo) (idx : Nat) (admin : BridgeAdmin)
    (token : TokenType) (amount : Nat) (ci : InstrInfo) (k acc0 : Pubkey)
    (h0 : idx ≠ 0) (hci : instrs[idx - 1]? = some ci)
    (hprog : ci.program_id = admin.commission_program)
    (hk : cca ci.program_id bak = some k) (hacc : ci.accounts[0]? = some acc0)
    (hke : k ≠ acc0) :
    verify_commission_charged cca pc bak instrs idx admin token amount =
      .error .WrongCommissionAccount := by
  have hk2 : cca admin.commission_program bak = some k := by
    rw [← hprog]; exact hk
  simp [verify_commission_charged, h0, hci, hprog, hk2, hacc, hke]

theorem verify_commission_wrong_shape
    (cca : Pubkey → Pubkey → Option Pubkey)
    (pc : Bytes → Option CommissionInstruction) (bak : Pubkey)
    (instrs : List InstrInfo) (idx : Nat) (admin : BridgeAdmin)
    (token : TokenType) (amount : Nat) (ci : InstrInfo) (k : Pubkey)
    (h0 : idx ≠ 0) (hci : instrs[idx - 1]? = some ci)
    (hprog : ci.program_id = admin.commission_program)
    (hk : cca ci.program_id bak = some k) (hacc : ci.accounts[0]? = some k)
    (hpc : pc ci.data = some .OtherMessage) :
    verify_commission_charged cca pc bak instrs idx admin token amount =
      .error .WrongCommissionArguments := by
  have hk2 : cca admin.commission_program bak = some k := by
    rw [← hprog]; exact hk
  simp [verify_commission_charged, h0, hci, hprog, hk2, hacc, hpc]

theorem verify_commission_wrong_values
    (cca : Pubkey → Pubkey → Option Pubkey)
    (pc : Bytes → Option CommissionInstruction) (bak : Pubkey)
    (instrs : List InstrInfo) (idx : Nat) (admin : BridgeAdmin)
    (token : TokenType) (amount : Nat) (ci : InstrInfo) (k : Pubkey)
    (tk : TokenType) (amt : Nat)
    (h0 : idx ≠ 0) (hci : instrs[idx - 1]? = some ci)
    (hprog : ci.program_id = admin.commission_program)
    (hk : cca ci.program_id bak = some k) (hacc : ci.accounts[0]? = some k)
    (hpc : pc ci.data = some (.ChargeCommission tk amt))
    (hta : ¬(tk = token ∧ amt = amount)) :
    verify_commission_charged cca pc bak instrs idx admin token amount =
      .error .WrongCommissionArguments := by
  have hk2 : cca admin.commission_program bak = some k := by
    rw [← hprog]; exact hk
  simp [verify_commission_charged, h0, hci, hprog, hk2, hacc, hpc, hta]

/-- Claim C5: a deposit — Native, FT or NFT — succeeds only when the
operation immediately preceding it in the unit is an instruction of the
configured commission program whose first account is the derived
commission-admin address and whose payload decodes to a ChargeCommission
message with the deposit's own (tokenKind, amount) pair — (Native,
amount), (FT, amount) and (NFT, 1) respectively; an absent preceding
operation, wrong program, wrong account, wrong message shape or
mismatched values each fail closed with the corresponding error, and a
matching charge lets the deposit succeed. -/
theorem deposit_requires_matching_commission
    (cca : Pubkey → Pubkey → Option Pubkey)
    (pc : Bytes → Option CommissionInstruction)
    (bak : Pubkey) (admin : BridgeAdmin) (instrs : List InstrInfo)
    (idx amount : Nat) :
    ((∀ seedsOk,
      process_deposit_native cca pc seedsOk bak admin instrs idx amount = .ok () →
      seedsOk = true ∧ admin.is_initialized = true ∧ idx ≠ 0 ∧
        ∃ ci k, instrs[idx - 1]? = some ci ∧
          ci.program_id = admin.commission_program ∧
          cca ci.program_id bak = some k ∧
          ci.accounts[0]? = some k ∧
          pc ci.data = some (.ChargeCommission .Native amount)) ∧
    (admin.is_initialized = true → (idx = 0 ∨ instrs[idx - 1]? = none) →
      process_deposit_native cca pc true bak admin instrs idx amount =
        .error .SysvarLoadFailed) ∧
    (∀ ci, admin.is_initialized = true → idx ≠ 0 → instrs[idx - 1]? = some ci →
      ci.program_id ≠ admin.commission_program →
      process_deposit_native cca pc true bak admin instrs idx amount =
        .error .WrongCommissionProgram) ∧
    (∀ ci k acc0, admin.is_initialized = true → idx ≠ 0 →
      instrs[idx - 1]? = some ci → ci.program_id = admin.commission_program →
      cca ci.program_id bak = some k → ci.accounts[0]? = some acc0 → k ≠ acc0 →
      process_deposit_native cca pc true bak admin instrs idx amount =
        .error .WrongCommissionAccount) ∧
    (∀ ci k, admin.is_initialized = true → idx ≠ 0 →
      instrs[idx - 1]? = some ci → ci.program_id = admin.commission_program →
      cca ci.program_id bak = some k → ci.accounts[0]? = some k →
      pc ci.data = some .OtherMessage →
      process_deposit_native cca pc true bak admin instrs idx amount =
        .error .WrongCommissionArguments) ∧
    (∀ ci k tk amt, admin.is_initialized = true → idx ≠ 0 →
      instrs[idx - 1]? = some ci → ci.program_id = admin.commission_program →
      cca ci.program_id bak = some k → ci.accounts[0]? = some k →
      pc ci.data = some (.ChargeCommission tk amt) →
      ¬(tk = TokenType.Native ∧ amt = amount) →
      process_deposit_native cca pc true bak admin instrs idx amount =
        .error .WrongCommissionArguments) ∧
    (∀ ci k, admin.is_initialized = true → idx ≠ 0 →
      instrs[idx - 1]? = some ci → ci.program_id = admin.commission_program →
      cca ci.program_id bak = some k → ci.accounts[0]? = some k →
      pc ci.data = some (.ChargeCommission .Native amount) →
      process_deposit_native cca pc true bak admin instrs idx amount = .ok ())) ∧
    ((∀ seedsOk bAok ts tsOk,
      process_deposit_ft cca pc seedsOk bak admin instrs idx bAok ts tsOk
          amount = .ok () →
      seedsOk = true ∧ admin.is_initialized = true ∧ idx ≠ 0 ∧
        ∃ ci k, instrs[idx - 1]? = some ci ∧
          ci.program_id = admin.commission_program ∧
          cca ci.program_id bak = some k ∧
          ci.accounts[0]? = some k ∧
          pc ci.data = some (.ChargeCommission .FT amount)) ∧
    (∀ bAok ts tsOk, admin.is_initialized = true →
      (idx = 0 ∨ instrs[idx - 1]? = none) →
      process_deposit_ft cca pc true bak admin instrs idx bAok ts tsOk amount =
        .error .SysvarLoadFailed) ∧
    (∀ bAok ts tsOk ci, admin.is_initialized = true → idx ≠ 0 →
      instrs[idx - 1]? = some ci →
      ci.program_id ≠ admin.commission_program →
      process_deposit_ft cca pc true bak admin instrs idx bAok ts tsOk amount =
        .error .WrongCommissionProgram) ∧
    (∀ bAok ts tsOk ci k acc0, admin.is_initialized = true → idx ≠ 0 →
      instrs[idx - 1]? = some ci → ci.program_id = admin.commission_program →
      cca ci.program_id bak = some k → ci.accounts[0]? = some acc0 → k ≠ acc0 →
      process_deposit_ft cca pc true bak admin instrs idx bAok ts tsOk amount =
        .error .WrongCommissionAccount) ∧
    (∀ bAok ts tsOk ci k, admin.is_initialized = true → idx ≠ 0 →
      instrs[idx - 1]? = some ci → ci.program_id = admin.commission_program →
      cca ci.program_id bak = some k → ci.accounts[0]? = some k →
      pc ci.data = some .OtherMessage →
      process_deposit_ft cca pc true bak admin instrs idx bAok ts tsOk amount =
        .error .WrongCommissionArguments) ∧
    (∀ bAok ts tsOk ci k tk amt, admin.is_initialized = true → idx ≠ 0 →
      instrs[idx - 1]? = some ci → ci.program_id = admin.commission_program →
      cca ci.program_id bak = some k → ci.accounts[0]? = some k →
      pc ci.data = some (.ChargeCommission tk amt) →
      ¬(tk = TokenType.FT ∧ amt = amount) →
      process_deposit_ft cca pc true bak admin instrs idx bAok ts tsOk amount =
        .error .WrongCommissionArguments) ∧
    (∀ bAok ts tsOk ci k, admin.is_initialized = true → idx ≠ 0 →
      instrs[idx - 1]? = some ci → ci.program_id = admin.commission_program →
      cca ci.program_id bak = some k → ci.accounts[0]? = some k →
      pc ci.data = some (.ChargeCommission .FT amount) →
      bAok = true → tsOk = true →
      process_deposit_ft cca pc true bak admin instrs idx bAok ts tsOk amount =
        .ok ())) ∧
    ((∀ seedsOk bAok ts tsOk,
      process_deposit_nft cca pc seedsOk bak admin instrs idx bAok ts tsOk =
        .ok () →
      seedsOk = true ∧ admin.is_initialized = true ∧ idx ≠ 0 ∧
        ∃ ci k, instrs[idx - 1]? = some ci ∧
          ci.program_id = admin.commission_program ∧
          cca ci.program_id bak = some k ∧
          ci.accounts[0]? = some k ∧
          pc ci.data = some (.ChargeCommission .NFT 1)) ∧
    (∀ bAok ts tsOk, admin.is_initialized = true →
      (idx = 0 ∨ instrs[idx - 1]? = none) →
      process_deposit_nft cca pc true bak admin instrs idx bAok ts tsOk =
        .error .SysvarLoadFailed) ∧
    (∀ bAok ts tsOk ci, admin.is_initialized = true → idx ≠ 0 →
      instrs[idx - 1]? = some ci →
      ci.program_id ≠ admin.commission_program →
      process_deposit_nft cca pc true bak admin instrs idx bAok ts tsOk =
        .error .WrongCommissionProgram) ∧
    (∀ bAok ts tsOk ci k acc0, admin.is_initialized = true → idx ≠ 0 →
      instrs[idx - 1]? = some ci → ci.program_id = admin.commission_program →
      cca ci.program_id bak = some k → ci.accounts[0]? = some acc0 → k ≠ acc0 →
      process_deposit_nft cca pc true bak admin instrs idx bAok ts tsOk =
        .error .WrongCommissionAccount) ∧
    (∀ bAok ts tsOk ci k, admin.is_initialized = true → idx ≠ 0 →
      instrs[idx - 1]? = some ci → ci.program_id = admin.commission_program →
      cca ci.program_id bak = some k → ci.accounts[0]? = some k →
      pc ci.data = some .OtherMessage →
      process_deposit_nft cca pc true bak admin instrs idx bAok ts tsOk =
        .error .WrongCommissionArguments) ∧
    (∀ bAok ts tsOk ci k tk amt, admin.is_initialized = true → idx ≠ 0 →
      instrs[idx - 1]? = some ci → ci.program_id = admin.commission_program →
      cca ci.program_id bak = some k → ci.accounts[0]? = some k →
      pc ci.data = some (.ChargeCommission tk amt) →
      ¬(tk = TokenType.NFT ∧ amt = 1) →
      process_deposit_nft cca pc true bak admin instrs idx bAok ts tsOk =
        .error .WrongCommissionArguments) ∧
    (∀ bAok ts tsOk ci k, admin.is_initialized = true → idx ≠ 0 →
      instrs[idx - 1]? = some ci → ci.program_id = admin.commission_program →
      cca ci.program_id bak = some k → ci.accounts[0]? = some k →
      pc ci.data = some (.ChargeCommission .NFT 1) →
      bAok = true → tsOk = true →
      process_deposit_nft cca pc true bak admin instrs idx bAok ts tsOk =
        .ok ())) := by
  refine ⟨⟨?_, ?_, ?_, ?_, ?_, ?_, ?_⟩, ⟨?_, ?_, ?_, ?_, ?_, ?_, ?_⟩,
    ⟨?_, ?_, ?_, ?_, ?_, ?_, ?_⟩⟩
  · intro seedsOk h
    by_cases hs : seedsOk
    · by_cases hi : admin.is_initialized
      · rcases hv : verify_commission_charged cca pc bak instrs idx admin .Native
            amount with e | u
        · simp [process_deposit_native, hs, hi, hv] at h
        · cases u
          obtain ⟨h0, rest⟩ := (verify_commission_ok_iff cca pc bak instrs idx
            admin .Native amount).mp hv
          exact ⟨hs, hi, h0, rest⟩
      · simp [process_deposit_native, hs, hi] at h
    · simp [process_deposit_native, hs] at h
  · intro hi habs
    simp [process_deposit_native, hi,
      verify_commission_absent cca pc bak instrs idx admin .Native amount habs]
  · intro ci hi h0 hci hprog
    simp [process_deposit_native, hi, verify_commission_wrong_program cca pc
      bak instrs idx admin .Native amount ci h0 hci hprog]
  · intro ci k acc0 hi h0 hci hprog hk hacc hke
    simp [process_deposit_native, hi, verify_commission_wrong_account cca pc
      bak instrs idx admin .Native amount ci k acc0 h0 hci hprog hk hacc hke]
  · intro ci k hi h0 hci hprog hk hacc hpc
    simp [process_deposit_native, hi, verify_commission_wrong_shape cca pc
      bak instrs idx admin .Native amount ci k h0 hci hprog hk hacc hpc]
  · intro ci k tk amt hi h0 hci hprog hk hacc hpc hta
    simp [process_deposit_native, hi, verify_commission_wrong_values cca pc
      bak instrs idx admin .Native amount ci k tk amt h0 hci hprog hk hacc hpc hta]
  · intro ci k hi h0 hci hprog hk hacc hpc
    have hv : verify_commission_charged cca pc bak instrs idx admin .Native
        amount = .ok () :=
      (verify_commission_ok_iff cca pc bak instrs idx admin .Native amount).mpr
        ⟨h0, ci, k, hci, hprog, hk, hacc, hpc⟩
    simp [process_deposit_native, hi, hv]
  · intro seedsOk bAok ts tsOk h
    by_cases hs : seedsOk
    · by_cases hi : admin.is_initialized
      · rcases hv : verify_commission_charged cca pc bak instrs idx admin .FT
            amount with e | u
        · simp [process_deposit_ft, hs, hi, hv] at h
        · cases u
          obtain ⟨h0, rest⟩ := (verify_commission_ok_iff cca pc bak instrs idx
            admin .FT amount).mp hv
          exact ⟨hs, hi, h0, rest⟩
      · simp [process_deposit_ft, hs, hi] at h
    · simp [process_deposit_ft, hs] at h
  · intro bAok ts tsOk hi habs
    simp [process_deposit_ft, hi,
      verify_commission_absent cca pc bak instrs idx admin .FT amount habs]
  · intro bAok ts tsOk ci hi h0 hci hprog
    simp [process_deposit_ft, hi, verify_commission_wrong_program cca pc
      bak instrs idx admin .FT amount ci h0 hci hprog]
  · intro bAok ts tsOk ci k acc0 hi h0 hci hprog hk hacc hke
    simp [process_deposit_ft, hi, verify_commission_wrong_account cca pc
      bak instrs idx admin .FT amount ci k acc0 h0 hci hprog hk hacc hke]
  · intro bAok ts tsOk ci k hi h0 hci hprog hk hacc hpc
    simp [process_deposit_ft, hi, verify_commission_wrong_shape cca pc
      bak instrs idx admin .FT amount ci k h0 hci hprog hk hacc hpc]
  · intro bAok ts tsOk ci k tk amt hi h0 hci hprog hk hacc hpc hta
    simp [process_deposit_ft, hi, verify_commission_wrong_values cca pc
      bak instrs idx admin .FT amount ci k tk amt h0 hci hprog hk hacc hpc hta]
  · intro bAok ts tsOk ci k hi h0 hci hprog hk hacc hpc hba hts
    have hv : verify_commission_charged cca pc bak instrs idx admin .FT
        amount = .ok () :=
      (verify_commission_ok_iff cca pc bak instrs idx admin .FT amount).mpr
        ⟨h0, ci, k, hci, hprog, hk, hacc, hpc⟩
    cases ts <;> simp [process_deposit_ft, hi, hv, hba, hts]
  · intro seedsOk bAok ts tsOk h
    by_cases hs : seedsOk
    · by_cases hi : admin.is_initialized
      · rcases hv : verify_commission_charged cca pc bak instrs idx admin .NFT 1
            with e | u
        · simp [process_deposit_nft, hs, hi, hv] at h
        · cases u
          obtain ⟨h0, rest⟩ := (verify_commission_ok_iff cca pc bak instrs idx
            admin .NFT 1).mp hv
          exact ⟨hs, hi, h0, rest⟩
      · simp [process_deposit_nft, hs, hi] at h
    · simp [process_deposit_nft, hs] at h
  · intro bAok ts tsOk hi habs
    simp [process_deposit_nft, hi,
      verify_commission_absent cca pc bak instrs idx admin .NFT 1 habs]
  · intro bAok ts tsOk ci hi h0 hci hprog
    simp [process_deposit_nft, hi, verify_commission_wrong_program cca pc
      bak instrs idx admin .NFT 1 ci h0 hci hprog]
  · intro bAok ts tsOk ci k acc0 hi h0 hci hprog hk hacc hke
    simp [process_deposit_nft, hi, verify_commission_wrong_account cca pc
      bak instrs idx admin .NFT 1 ci k acc0 h0 hci hprog hk hacc hke]
  · intro bAok ts tsOk ci k hi h0 hci hprog hk hacc hpc
    simp [process_deposit_nft, hi, verify_commission_wrong_shape cca pc
      bak instrs idx admin .NFT 1 ci k h0 hci hprog hk hacc hpc]
  · intro bAok ts tsOk ci k tk amt hi h0 hci hprog hk hacc hpc hta
    simp [process_deposit_nft, hi, verify_commission_wrong_values cca pc
      bak instrs idx admin .NFT 1 ci k tk amt h0 hci hprog hk hacc hpc hta]
  · intro bAok ts tsOk ci k hi h0 hci hprog hk hacc hpc hba hts
    have hv : verify_commission_charged cca pc bak instrs idx admin .NFT 1 =
        .ok () :=
      (verify_commission_ok_iff cca pc bak instrs idx admin .NFT 1).mpr
        ⟨h0, ci, k, hci, hprog, hk, hacc, hpc⟩
    cases ts <;> simp [process_deposit_nft, hi, hv, hba, hts]

/-- Witness for C5: deposits of all three token kinds with a correctly
matching preceding charge succeed, and a native deposit with a
mismatched amount fails with the wrong-arguments error. -/
theorem deposit_requires_matching_commission_witness :
    process_deposit_native (fun _ _ => some [3])
      (fun _ => some (.ChargeCommission .Native 100)) true [1]
      ⟨true, [2], [7]⟩ [⟨[7], [[3]], []⟩] 1 100 = .ok () ∧
    process_deposit_native (fun _ _ => some [3])
      (fun _ => some (.ChargeCommission .Native 100)) true [1]
      ⟨true, [2], [7]⟩ [⟨[7], [[3]], []⟩] 1 99 =
        .error .WrongCommissionArguments ∧
    process_deposit_ft (fun _ _ => some [3])
      (fun _ => some (.ChargeCommission .FT 100)) true [1]
      ⟨true, [2], [7]⟩ [⟨[7], [[3]], []⟩] 1 true none true 100 = .ok () ∧
    process_deposit_nft (fun _ _ => some [3])
      (fun _ => some (.ChargeCommission .NFT 1)) true [1]
      ⟨true, [2], [7]⟩ [⟨[7], [[3]], []⟩] 1 true none true = .ok () :=
  ⟨((deposit_requires_matching_commission (fun _ _ => some [3])
      (fun _ => some (.ChargeCommission .Native 100)) [1] ⟨true, [2], [7]⟩
      [⟨[7], [[3]], []⟩] 1 100).1).2.2.2.2.2.2 ⟨[7], [[3]], []⟩ [3]
      rfl (by decide) rfl rfl rfl rfl rfl,
   ((deposit_requires_matching_commission (fun _ _ => some [3])
      (fun _ => some (.ChargeCommission .Native 100)) [1] ⟨true, [2], [7]⟩
      [⟨[7], [[3]], []⟩] 1 99).1).2.2.2.2.2.1 ⟨[7], [[3]], []⟩ [3] .Native 100
      rfl (by decide) rfl rfl rfl rfl rfl (by decide),
   ((deposit_requires_matching_commission (fun _ _ => some [3])
      (fun _ => some (.ChargeCommission .FT 100)) [1] ⟨true, [2], [7]⟩
      [⟨[7], [[3]], []⟩] 1 100).2.1).2.2.2.2.2.2 true none true
      ⟨[7], [[3]], []⟩ [3] rfl (by decide) rfl rfl rfl rfl rfl rfl rfl,
   ((deposit_requires_matching_commission (fun _ _ => some [3])
      (fun _ => some (.ChargeCommission .NFT 1)) [1] ⟨true, [2], [7]⟩
      [⟨[7], [[3]], []⟩] 1 1).2.2).2.2.2.2.2.2 true none true
      ⟨[7], [[3]], []⟩ [3] rfl (by decide) rfl rfl rfl rfl rfl rfl rfl⟩

end SolanaBridge

namespace SolanaBridge

theorem storeUpdate_same (s : Pubkey → Option Withdraw) (a : Pubkey) (w : Withdraw) :
    storeUpdate s a w a = some w := by
  simp [storeUpdate]

theorem storeUpdate_other (s : Pubkey → Option Withdraw) (a x : Pubkey)
    (w : Withdraw) (hx : x ≠ a) : storeUpdate s a w x = s x := by
  simp [storeUpdate, hx]

/-- Inversion of a successful native withdrawal: all guards passed, the
withdraw account is the one derived from the origin, it was previously
unoccupied, and the final state holds the fully initialized record there
with the admin balance debited. -/
theorem withdraw_native_ok_inversion (kc : Bytes → Bytes)
    (rc : Bytes → Nat → Bytes → Option Bytes) (fpa : Bytes → Pubkey)
    (seedsOk : Bool) (admin : BridgeAdmin) (st : ChainState)
    (owner : Pubkey) (pid : Bytes) (wacc : Pubkey) (sig : Bytes) (rid : Nat)
    (path : List Bytes) (origin : Bytes) (amount : Nat) (st' : ChainState)
    (h : process_withdraw_native kc rc fpa seedsOk admin st owner pid wacc
      sig rid path origin amount = .ok st') :
    seedsOk = true ∧ admin.is_initialized = true ∧
    fpa origin = wacc ∧ st.store wacc = none ∧ ¬ st.adminBalance < amount ∧
    st' = ⟨storeUpdate (storeUpdate st.store wacc Withdraw.empty) wacc
      ⟨true, .Native, origin, none, amount, owner⟩, st.adminBalance - amount⟩ := by
  by_cases hs : seedsOk
  · by_cases hi : admin.is_initialized
    · rcases hroot : get_merkle_root kc (ContentNode.new origin owner pid
          (TransferOperation.new_native_transfer amount).get_operation) path with e | root
      · simp [process_withdraw_native, hs, hi, hroot] at h
      · rcases hver : verify_ecdsa_signature rc root sig rid admin.public_key with e | u
        · simp [process_withdraw_native, hs, hi, hroot, hver] at h
        · cases u
          by_cases hbal : st.adminBalance < amount
          · simp [process_withdraw_native, hs, hi, hroot, hver, hbal] at h
          · by_cases hnonce : fpa origin = wacc
            · rcases hocc : st.store wacc with _ | w
              · refine ⟨hs, hi, hnonce, rfl, hbal, ?_⟩
                simp [process_withdraw_native, hs, hi, hroot, hver, hbal, hnonce,
                  call_create_account, hocc, storeUpdate_same, Withdraw.empty] at h
                exact h.symm
              · simp [process_withdraw_native, hs, hi, hroot, hver, hbal, hnonce,
                  call_create_account, hocc] at h
            · simp [process_withdraw_native, hs, hi, hroot, hver, hbal, hnonce] at h
    · simp [process_withdraw_native, hs, hi] at h
  · simp [process_withdraw_native, hs] at h

/-- Inversion of a successful checked NFT withdrawal tail. -/
theorem withdraw_nft_checked_ok_inversion (kc : Bytes → Bytes)
    (rc : Bytes → Nat → Bytes → Option Bytes) (fpa : Bytes → Pubkey)
    (admin : BridgeAdmin) (st : ChainState)
    (mint : Bytes) (owner : Pubkey) (pid : Bytes) (wacc : Pubkey)
    (collection : Option Bytes) (collMetaOk : Bool) (name symbol uri : Bytes)
    (bAok oAok : Bool) (sig : Bytes) (rid : Nat) (path : List Bytes)
    (origin : Bytes) (st' : ChainState)
    (h : process_withdraw_nft_checked kc rc fpa admin st mint owner pid wacc
      collection collMetaOk name symbol uri bAok oAok sig rid path origin =
      .ok st') :
    fpa origin = wacc ∧ st.store wacc = none ∧
    st' = ⟨storeUpdate (storeUpdate st.store wacc Withdraw.empty) wacc
      ⟨true, .NFT, origin, some mint, 1, owner⟩, st.adminBalance⟩ := by
  by_cases hcoll : collection.isSome ∧ ¬collMetaOk
  · simp [process_withdraw_nft_checked, hcoll] at h
  · have hcoll2 : ¬(collection.isSome = true ∧ collMetaOk = false) := by
      simpa using hcoll
    rcases hroot : get_merkle_root kc (ContentNode.new origin owner pid
        (TransferOperation.new_nft_transfer mint collection name symbol
          uri).get_operation) path with e | root
    · simp [process_withdraw_nft_checked, hcoll2, hroot] at h
    · rcases hver : verify_ecdsa_signature rc root sig rid admin.public_key with e | u
      · simp [process_withdraw_nft_checked, hcoll2, hroot, hver] at h
      · cases u
        by_cases hba : bAok
        · by_cases hoa : oAok
          · by_cases hnonce : fpa origin = wacc
            · rcases hocc : st.store wacc with _ | w
              · refine ⟨hnonce, rfl, ?_⟩
                simp [process_withdraw_nft_checked, hcoll2, hroot, hver, hba,
                  hoa, hnonce, call_create_account, hocc, storeUpdate_same,
                  Withdraw.empty] at h
                exact h.symm
              · simp [process_withdraw_nft_checked, hcoll2, hroot, hver, hba,
                  hoa, hnonce, call_create_account, hocc] at h
            · simp [process_withdraw_nft_checked, hcoll2, hroot, hver, hba,
                hoa, hnonce] at h
          · simp [process_withdraw_nft_checked, hcoll2, hroot, hver, hba, hoa] at h
        · simp [process_withdraw_nft_checked, hcoll2, hroot, hver, hba] at h

/-- Inversion of a successful NFT withdrawal: the withdraw account is the
one derived from the origin, it was previously unoccupied, and the final
state holds the fully initialized NFT record there. -/
theorem withdraw_nft_ok_inversion (kc : Bytes → Bytes)
    (rc : Bytes → Nat → Bytes → Option Bytes) (fpa : Bytes → Pubkey)
    (seedsOk : Bool) (admin : BridgeAdmin) (st : ChainState)
    (mint : Bytes) (owner : Pubkey) (pid : Bytes) (wacc : Pubkey)
    (metaOk : Bool) (mintStep : Option (Except LibError Unit))
    (collection : Option Bytes) (collMetaOk : Bool) (name symbol uri : Bytes)
    (bAok oAok : Bool) (sig : Bytes) (rid : Nat) (path : List Bytes)
    (origin : Bytes) (st' : ChainState)
    (h : process_withdraw_nft kc rc fpa seedsOk admin st mint owner pid wacc
      metaOk mintStep collection collMetaOk name symbol uri bAok oAok sig rid
      path origin = .ok st') :
    seedsOk = true ∧ admin.is_initialized = true ∧
    fpa origin = wacc ∧ st.store wacc = none ∧
    st' = ⟨storeUpdate (storeUpdate st.store wacc Withdraw.empty) wacc
      ⟨true, .NFT, origin, some mint, 1, owner⟩, st.adminBalance⟩ := by
  by_cases hs : seedsOk
  · by_cases hi : admin.is_initialized
    · by_cases hm : metaOk
      · have hrest : process_withdraw_nft_checked kc rc fpa admin st mint owner
            pid wacc collection collMetaOk name symbol uri bAok oAok sig rid
            path origin = .ok st' := by
          rcases mintStep with _ | r
          · simpa [process_withdraw_nft, hs, hi, hm] using h
          · cases r with
            | error e => simp [process_withdraw_nft, hs, hi, hm] at h
            | ok u => simpa [process_withdraw_nft, hs, hi, hm] using h
        obtain ⟨h1, h2, h3⟩ := withdraw_nft_checked_ok_inversion kc rc fpa admin
          st mint owner pid wacc collection collMetaOk name symbol uri bAok
          oAok sig rid path origin st' hrest
        exact ⟨hs, hi, h1, h2, h3⟩
      · simp [process_withdraw_nft, hs, hi, hm] at h
    · simp [process_withdraw_nft, hs, hi] at h
  · simp [process_withdraw_nft, hs] at h

end SolanaBridge

namespace SolanaBridge

theorem withdraw_empty_uninit : Withdraw.empty.is_initialized = false := rfl

/-- Counterexample for C1: with the record for an origin already
persisted, a second withdrawal attempt whose signature does not recover —
one of the "any other parameter" cases — fails with `InvalidSignature`,
not `AlreadyInUse`. -/
theorem second_withdraw_not_always_already_in_use :
    ((⟨fun a => if a = [1] then some ⟨true, .Native, [1], none, 5, [4]⟩
        else none, 100⟩ : ChainState).store ((fun o => o : Bytes → Pubkey) [1])).isSome
      = true ∧
    process_withdraw_native (fun _ => List.replicate 32 0) (fun _ _ _ => none)
      (fun o => o) true ⟨true, [2], [7]⟩
      ⟨fun a => if a = [1] then some ⟨true, .Native, [1], none, 5, [4]⟩
        else none, 100⟩
      [4] [9] [1] [] 0 [List.replicate 32 6] [1] 5 =
      .error .InvalidSignature ∧
    (Except.error .InvalidSignature : Except LibError ChainState) ≠
      .error .AlreadyInUse := by
  refine ⟨rfl, ?_, by simp⟩
  simp [process_withdraw_native, get_merkle_root, verify_ecdsa_signature]

/-- Claim C1 (amended): for a fixed origin, the first withdrawal that
passes all checks succeeds and persists a WithdrawRecord at the address
derived from that origin; once a record occupies that address, no second
withdrawal attempt — native or NFT, with any parameters — can succeed,
and a second native attempt that passes every check preceding the replay
guard fails with AlreadyInUse; both withdraw processors preserve the
invariant that every initialized record sits at the address derived from
its own origin, under which no two WithdrawRecords share an origin. -/
theorem replay_guard_per_origin (kc : Bytes → Bytes)
    (rc : Bytes → Nat → Bytes → Option Bytes) (fpa : Bytes → Pubkey) :
    (∀ admin st owner pid sig rid path origin amount,
      admin.is_initialized = true → st.store (fpa origin) = none →
      ¬ st.adminBalance < amount → path ≠ [] →
      rc (path.foldl (merkleStep kc) ((ContentNode.new origin owner pid
          (TransferOperation.new_native_transfer amount).get_operation).hash kc))
        rid sig = some admin.public_key →
      process_withdraw_native kc rc fpa true admin st owner pid (fpa origin)
          sig rid path origin amount =
        .ok ⟨storeUpdate (storeUpdate st.store (fpa origin) Withdraw.empty)
          (fpa origin) ⟨true, .Native, origin, none, amount, owner⟩,
          st.adminBalance - amount⟩) ∧
    (∀ seedsOk admin st owner pid wacc sig rid path origin amount st',
      (st.store (fpa origin)).isSome = true →
      process_withdraw_native kc rc fpa seedsOk admin st owner pid wacc
        sig rid path origin amount ≠ .ok st') ∧
    (∀ seedsOk admin st mint owner pid wacc metaOk mintStep collection
        collMetaOk name symbol uri bAok oAok sig rid path origin st',
      (st.store (fpa origin)).isSome = true →
      process_withdraw_nft kc rc fpa seedsOk admin st mint owner pid wacc
        metaOk mintStep collection collMetaOk name symbol uri bAok oAok
        sig rid path origin ≠ .ok st') ∧
    (∀ admin st owner pid sig rid path origin amount w,
      admin.is_initialized = true → st.store (fpa origin) = some w →
      ¬ st.adminBalance < amount → path ≠ [] →
      rc (path.foldl (merkleStep kc) ((ContentNode.new origin owner pid
          (TransferOperation.new_native_transfer amount).get_operation).hash kc))
        rid sig = some admin.public_key →
      process_withdraw_native kc rc fpa true admin st owner pid (fpa origin)
          sig rid path origin amount = .error .AlreadyInUse) ∧
    (∀ seedsOk admin st owner pid wacc sig rid path origin amount st',
      WithdrawInv fpa st →
      process_withdraw_native kc rc fpa seedsOk admin st owner pid wacc
        sig rid path origin amount = .ok st' → WithdrawInv fpa st') ∧
    (∀ seedsOk admin st mint owner pid wacc metaOk mintStep collection
        collMetaOk name symbol uri bAok oAok sig rid path origin st',
      WithdrawInv fpa st →
      process_withdraw_nft kc rc fpa seedsOk admin st mint owner pid wacc
        metaOk mintStep collection collMetaOk name symbol uri bAok oAok
        sig rid path origin = .ok st' → WithdrawInv fpa st') ∧
    (∀ st, WithdrawInv fpa st → ∀ a₁ a₂ w₁ w₂,
      st.store a₁ = some w₁ → st.store a₂ = some w₂ →
      w₁.is_initialized = true → w₂.is_initialized = true →
      w₁.origin = w₂.origin → a₁ = a₂) := by
  refine ⟨?_, ?_, ?_, ?_, ?_, ?_, ?_⟩
  · intro admin st owner pid sig rid path origin amount hi hocc hbal hne hrc
    have hlen : ¬ path.length = 0 := fun hl => hne (List.length_eq_zero.mp hl)
    simp [process_withdraw_native, hi, get_merkle_root, hlen,
      verify_ecdsa_signature, hrc, hbal, call_create_account, hocc,
      storeUpdate_same, Withdraw.empty]
  · intro seedsOk admin st owner pid wacc sig rid path origin amount st' hocc h
    obtain ⟨_, _, hn, hempty, _, _⟩ := withdraw_native_ok_inversion kc rc fpa
      seedsOk admin st owner pid wacc sig rid path origin amount st' h
    rw [hn, hempty] at hocc
    simp at hocc
  · intro seedsOk admin st mint owner pid wacc metaOk mintStep collection
      collMetaOk name symbol uri bAok oAok sig rid path origin st' hocc h
    obtain ⟨_, _, hn, hempty, _⟩ := withdraw_nft_ok_inversion kc rc fpa seedsOk
      admin st mint owner pid wacc metaOk mintStep collection collMetaOk name
      symbol uri bAok oAok sig rid path origin st' h
    rw [hn, hempty] at hocc
    simp at hocc
  · intro admin st owner pid sig rid path origin amount w hi hocc hbal hne hrc
    have hlen : ¬ path.length = 0 := fun hl => hne (List.length_eq_zero.mp hl)
    simp [process_withdraw_native, hi, get_merkle_root, hlen,
      verify_ecdsa_signature, hrc, hbal, call_create_account, hocc]
  · intro seedsOk admin st owner pid wacc sig rid path origin amount st' hinv h
    obtain ⟨_, _, hn, hempty, _, hst'⟩ := withdraw_native_ok_inversion kc rc fpa
      seedsOk admin st owner pid wacc sig rid path origin amount st' h
    subst hst'
    intro a w hw hwinit
    simp only [] at hw
    by_cases ha : a = wacc
    · subst ha
      rw [storeUpdate_same] at hw
      simp only [Option.some.injEq] at hw
      subst hw
      exact hn.symm
    · rw [storeUpdate_other _ _ _ _ ha, storeUpdate_other _ _ _ _ ha] at hw
      exact hinv a w hw hwinit
  · intro seedsOk admin st mint owner pid wacc metaOk mintStep collection
      collMetaOk name symbol uri bAok oAok sig rid path origin st' hinv h
    obtain ⟨_, _, hn, hempty, hst'⟩ := withdraw_nft_ok_inversion kc rc fpa
      seedsOk admin st mint owner pid wacc metaOk mintStep collection
      collMetaOk name symbol uri bAok oAok sig rid path origin st' h
    subst hst'
    intro a w hw hwinit
    simp only [] at hw
    by_cases ha : a = wacc
    · subst ha
      rw [storeUpdate_same] at hw
      simp only [Option.some.injEq] at hw
      subst hw
      exact hn.symm
    · rw [storeUpdate_other _ _ _ _ ha, storeUpdate_other _ _ _ _ ha] at hw
      exact hinv a w hw hwinit
  · intro st hinv a₁ a₂ w₁ w₂ h1 h2 i1 i2 ho
    have e1 := hinv a₁ w₁ h1 i1
    have e2 := hinv a₂ w₂ h2 i2
    rw [e1, e2, ho]

/-- Witness for C1 at concrete platform functions: a concrete first
withdrawal passing all checks succeeds and persists the record. -/
theorem replay_guard_per_origin_witness :
    process_withdraw_native (fun _ => List.replicate 32 0)
      (fun _ _ _ => some [2]) (fun o => o) true ⟨true, [2], [7]⟩
      ⟨fun _ => none, 100⟩ [4] [9] [1] [] 0 [List.replicate 32 6] [1] 5 =
      .ok ⟨storeUpdate (storeUpdate (fun _ => none) [1] Withdraw.empty) [1]
        ⟨true, .Native, [1], none, 5, [4]⟩, 95⟩ :=
  (replay_guard_per_origin (fun _ => List.replicate 32 0)
      (fun _ _ _ => some [2]) (fun o => o)).1 ⟨true, [2], [7]⟩
    ⟨fun _ => none, 100⟩ [4] [9] [] 0 [List.replicate 32 6] [1] 5
    rfl rfl (by norm_num) (by simp) rfl

end SolanaBridge
